import Mathlib

/-!
Verification development for the Bleta news-aggregation pipeline
(`scripts/update_feed.py` plus `config.py`).

The Python pipeline is shallowly embedded:
* dictionaries with optional keys become structures with `Option String`
  fields (`none` models an absent key, `some ""` a present-but-empty value);
* `datetime.now()` is modelled by an explicit natural-number clock that is
  rendered to a timestamp string and advances by one at each observation,
  reflecting that successive wall-clock readings are fresh, distinct values;
* the filesystem side effects of one run are modelled as an explicit list of
  events, applied to a map from paths to file data;
* fallible externals (HTTP fetch, JSON load, the AI completion call) are
  modelled as `Except`/`Option`-valued inputs, mirroring the `try/except`
  containment in the source.
-/

set_option maxRecDepth 8000

namespace Bleta

/-! ## Timestamps: the explicit clock standing in for `datetime.now()` -/

/-- Rendering of the clock to a timestamp string, standing in for
`datetime.now().isoformat()`.  Distinct clock values yield distinct strings. -/
def isoTime (c : Nat) : String := "ts-" ++ toString c

/-- Rendering of the clock to a calendar-date string, standing in for
`datetime.now().strftime("%Y-%m-%d")`. -/
def dateStr (c : Nat) : String := "date-" ++ toString c

/-! ## Text normalizer: `BletaNewsAggregator._clean_text`

`_clean_text` feeds the raw text through `BeautifulSoup(text,
'html.parser').get_text()`, then `strip()`, then `' '.join(text.split())`.
The markup-extraction step is embedded as a character machine with the two
behaviours of the html parser that matter here: markup between `<` and `>` is
dropped (a `<` not followed by a tag-opening character is literal text), and
character references such as `&lt;` are decoded to the character they name
(the embedding covers the four common named references). -/

/-- Python `str.split()` / `str.strip()` whitespace test (ASCII subset). -/
def pySpace (c : Char) : Bool :=
  c = ' ' || c = '\t' || c = '\n' || c = '\r' || c = '\x0b' || c = '\x0c'

/-- Does this character open markup after `<`?  The html parser starts a tag
on a letter, `/`, `!` or `?`; any other following character leaves the `<` as
literal text. -/
def tagOpener (c : Char) : Bool :=
  c.isAlpha || c = '/' || c = '!' || c = '?'

/-- The text content extracted by `BeautifulSoup(..., 'html.parser').get_text()`:
`mode = true` means the machine is inside `<...>` markup (whose characters are
dropped), `mode = false` means it is emitting text and decoding character
references.  The machine consumes at least one character per step, so it is
driven by a fuel bounded below by the input length. -/
def getTextFuel : Nat → Bool → List Char → List Char
  | 0, _, _ => []
  | _ + 1, _, [] => []
  | fuel + 1, true, c :: cs =>
    if c = '>' then getTextFuel fuel false cs else getTextFuel fuel true cs
  | fuel + 1, false, c :: cs =>
    if c = '<' then
      match cs with
      | [] => ['<']
      | c2 :: _ =>
        if tagOpener c2 then getTextFuel fuel true cs
        else '<' :: getTextFuel fuel false cs
    else if c = '&' then
      match cs with
      | 'a' :: 'm' :: 'p' :: ';' :: rest => '&' :: getTextFuel fuel false rest
      | 'l' :: 't' :: ';' :: rest => '<' :: getTextFuel fuel false rest
      | 'g' :: 't' :: ';' :: rest => '>' :: getTextFuel fuel false rest
      | 'q' :: 'u' :: 'o' :: 't' :: ';' :: rest => '"' :: getTextFuel fuel false rest
      | _ => '&' :: getTextFuel fuel false cs
    else c :: getTextFuel fuel false cs

/-- `get_text()` on a character list: run the machine with enough fuel. -/
def getTextOf (l : List Char) : List Char := getTextFuel l.length false l

/-- Python `str.strip()` on a character list. -/
def pyStripList (l : List Char) : List Char :=
  ((l.dropWhile pySpace).reverse.dropWhile pySpace).reverse

/-- Python `str.split()` (no separator): split on whitespace runs, discarding
empty pieces.  `acc` holds the characters of the current word, reversed. -/
def splitWsAux : List Char → List Char → List (List Char)
  | [], acc => if acc = [] then [] else [acc.reverse]
  | c :: cs, acc =>
    if pySpace c then
      if acc = [] then splitWsAux cs [] else acc.reverse :: splitWsAux cs []
    else
      splitWsAux cs (c :: acc)

/-- Python `' '.join(words)` on character lists. -/
def joinSp : List (List Char) → List Char
  | [] => []
  | [w] => w
  | w :: ws => w ++ ' ' :: joinSp ws

/-- `text.strip()` followed by `' '.join(text.split())`, as in `_clean_text`. -/
def normalizeWs (l : List Char) : List Char :=
  joinSp (splitWsAux (pyStripList l) [])

/-- `BletaNewsAggregator._clean_text`: empty input short-circuits to `""`;
otherwise extract the text from the markup, strip, and collapse whitespace. -/
def clean_text (s : String) : String :=
  if s = "" then ""
  else (normalizeWs (getTextOf s.toList)).asString

/-! ## Articles and identity: `BletaNewsAggregator._generate_article_id` -/

/-- An article dictionary.  Fields read via `dict.get` in the source are
`Option String` (`none` = key absent); `source`/`source_url` are read by
direct indexing in the source and are always set by the fetcher. -/
structure Article where
  title : Option String
  link : Option String
  description : Option String
  published : Option String
  language : Option String
  guid : Option String
  fetched_at : Option String
  source : String
  source_url : String
  ai_summary : Option String
deriving DecidableEq

instance : Inhabited Article :=
  ⟨{ title := none, link := none, description := none, published := none,
     language := none, guid := none, fetched_at := none,
     source := "", source_url := "", ai_summary := none }⟩

/-- Python truthiness of a `dict.get` result: an absent key or an empty
string is falsy. -/
def truthy : Option String → Bool
  | none => false
  | some s => !s.isEmpty

/-- `BletaNewsAggregator._generate_article_id`.  `now` is the timestamp that
`datetime.now().isoformat()` would return at the moment of the call (used
only by the final fallback branch). -/
def generate_article_id (article : Article) (now : String) : String :=
  if truthy article.link then article.link.getD ""
  else if truthy article.title && truthy article.published then
    article.title.getD "" ++ "_" ++ article.published.getD ""
  else
    article.title.getD "unknown" ++ "_" ++ now

/-- The identity function as worded by the spec claim: in the fallback
branch the claim says the `"unknown"` default applies whenever `title` is
*empty*, not merely absent.  Kept for comparison with
`generate_article_id`, which is translated from the source. -/
def claimed_article_id (article : Article) (now : String) : String :=
  if truthy article.link then article.link.getD ""
  else if truthy article.title && truthy article.published then
    article.title.getD "" ++ "_" ++ article.published.getD ""
  else
    (if truthy article.title then article.title.getD "" else "unknown") ++ "_" ++ now

/-- An article whose identity does not depend on the wall clock: branch 1 or
branch 2 of `_generate_article_id` applies. -/
def stable_identity (a : Article) : Prop :=
  truthy a.link = true ∨ (truthy a.title = true ∧ truthy a.published = true)

instance (a : Article) : Decidable (stable_identity a) := by
  unfold stable_identity; infer_instance

/-! ## Summarizer: `BletaNewsAggregator._summarize_with_gemini` -/

/-- The external Gemini call: a prompt either yields a response text or
fails (exception raised, or a response with no text, modelled as `none`). -/
def GenClient : Type := String → Option String

/-- `AI_CONFIG["summary_prompt_template"].format(language=..., text=...)`. -/
def summary_prompt (language text : String) : String :=
  "Summarize the following Albanian news article in 1-2 concise sentences, in "
    ++ language ++ ", keeping key facts: " ++ text

/-- The truncation expression `text[:200] + "..." if len(text) > 200 else
text` that appears in each fallback position of `_summarize_with_gemini`. -/
def truncate_fallback (text : String) : String :=
  if 200 < text.length then text.take 200 ++ "..." else text

/-- `BletaNewsAggregator._summarize_with_gemini`: `if not self.ai_client or
not text` short-circuits to the truncation; otherwise the client is invoked
on the templated prompt over `text[:4000]`, and any failure or empty
response falls back to the truncation; a non-empty response is `strip()`ed. -/
def summarize_with_gemini (client : Option GenClient) (text : String)
    (language : String) : String :=
  match client with
  | none => truncate_fallback text
  | some generate =>
    if text = "" then truncate_fallback text
    else
      match generate (summary_prompt language (text.take 4000)) with
      | none => truncate_fallback text
      | some rtext =>
        if rtext = "" then truncate_fallback text else rtext.trim

/-! ## Dedup store: `_load_processed_articles` / `_save_processed_articles` -/

/-- The persisted dedup record `{"processed_ids": [...], "last_updated": ...}`. -/
structure DedupStore where
  processed_ids : List String
  last_updated : String
deriving DecidableEq

/-- `BletaNewsAggregator._load_processed_articles`.  The input models the
dedup file: `none` = file missing, `some (.error e)` = the file exists but
`json.load` raises (malformed content), `some (.ok st)` = it parses.  `now`
is the timestamp used for the fresh store's `last_updated`. -/
def load_processed_articles (disk : Option (Except String DedupStore))
    (now : String) : DedupStore :=
  match disk with
  | some (Except.ok st) => st
  | some (Except.error _) => { processed_ids := [], last_updated := now }
  | none => { processed_ids := [], last_updated := now }

/-! ## Deduplication and enrichment: `BletaNewsAggregator._process_articles` -/

/-- The per-article enrichment inside the `_process_articles` loop: summarize
`description` when it is truthy, else `title`, and attach the result as
`ai_summary` (the source mutates the dictionary in place). -/
def enrich (client : Option GenClient) (a : Article) : Article :=
  let text := if truthy a.description then a.description.getD "" else a.title.getD ""
  { a with ai_summary := some (summarize_with_gemini client text (a.language.getD "sq")) }

/-- The `for article in articles` loop of `_process_articles`: skip when the
identity is already known, otherwise enrich, retain, and record the identity.
The clock advances by one per iteration.  Returns (retained articles, final
identity set, final clock). -/
def processGo (client : Option GenClient) :
    List Article → List String → Nat → List Article × List String × Nat
  | [], ids, c => ([], ids, c)
  | a :: rest, ids, c =>
    let article_id := generate_article_id a (isoTime c)
    if article_id ∈ ids then processGo client rest ids (c + 1)
    else
      let r := processGo client rest (article_id :: ids) (c + 1)
      (enrich client a :: r.1, r.2)

/-- `BletaNewsAggregator._process_articles`: the loaded `processed_ids` list
is turned into a set (`set(...)` in the source, modelled by `List.dedup`),
the loop runs, and the resulting set is written back. -/
def process_articles (client : Option GenClient) (store : DedupStore)
    (articles : List Article) (c : Nat) : List Article × List String × Nat :=
  processGo client articles store.processed_ids.dedup c

/-- The identity set after the `_process_articles` loop (the second component
of `processGo`, restated without the retained list). -/
def seenAfter : List Article → List String → Nat → List String
  | [], ids, _ => ids
  | a :: rest, ids, c =>
    let article_id := generate_article_id a (isoTime c)
    if article_id ∈ ids then seenAfter rest ids (c + 1)
    else seenAfter rest (article_id :: ids) (c + 1)

/-- The per-position retain/skip decisions of the `_process_articles` loop. -/
def retainedFlags : List Article → List String → Nat → List Bool
  | [], _, _ => []
  | a :: rest, ids, c =>
    let article_id := generate_article_id a (isoTime c)
    (if article_id ∈ ids then false else true) ::
      retainedFlags rest (if article_id ∈ ids then ids else article_id :: ids) (c + 1)

/-- Select the elements of a list marked `true` by a parallel list of flags. -/
def maskSelect : List Bool → List Article → List Article
  | true :: bs, a :: rest => a :: maskSelect bs rest
  | false :: bs, _ :: rest => maskSelect bs rest
  | _, _ => []

/-! ## Feed fetching: `BletaNewsAggregator._fetch_rss_feed`

The HTTP GET, `raise_for_status()` and `feedparser.parse` of one source are
modelled as a single `Except`-valued input: any exception raised there is
caught by the `try/except` of `_fetch_rss_feed` and yields no articles. -/

/-- One entry of `ALBANIAN_NEWS_SOURCES` in `config.py`.  `enabled` is read
with `source.get("enabled", True)` in `get_enabled_sources`. -/
structure Source where
  name : String
  url : String
  language : String
  enabled : Option Bool
deriving DecidableEq

/-- One parsed feed entry; every field is read with `entry.get(...)`. -/
structure Entry where
  title : Option String
  link : Option String
  description : Option String
  published : Option String
  id : Option String
deriving DecidableEq

/-- A parsed feed document. -/
structure Feed where
  entries : List Entry
deriving DecidableEq

/-- `RSS_CONFIG["max_articles_per_source"]` in `config.py`. -/
def max_articles_per_source : Nat := 10

/-- `config.get_enabled_sources`: the sources whose `enabled` flag is not
`False` (an absent flag defaults to `True`). -/
def get_enabled_sources (sources : List Source) : List Source :=
  sources.filter (fun s => s.enabled.getD true)

/-- The article dictionary built for one feed entry inside the loop of
`_fetch_rss_feed` (lines 157-171): absent entry fields default to `""`,
`guid` defaults to the link, `title`/`description` pass through
`_clean_text`, and `fetched_at` is the timestamp of this iteration. -/
def entry_to_article (source : Source) (now : String) (e : Entry) : Article :=
  { title := some (clean_text (e.title.getD ""))
    link := some (e.link.getD "")
    description := some (clean_text (e.description.getD ""))
    published := some (e.published.getD "")
    language := some source.language
    guid := some (e.id.getD (e.link.getD ""))
    fetched_at := some now
    source := source.name
    source_url := source.url
    ai_summary := none }

/-- The entry loop of `_fetch_rss_feed`, threading the clock (one
`datetime.now()` observation per entry). -/
def entries_to_articles (source : Source) :
    List Entry → Nat → List Article × Nat
  | [], c => ([], c)
  | e :: es, c =>
    let a := entry_to_article source (isoTime c) e
    let r := entries_to_articles source es (c + 1)
    (a :: r.1, r.2)

/-- `BletaNewsAggregator._fetch_rss_feed`: on any fetch/parse error the
`except` clause leaves the article list empty; on success the first
`max_articles_per_source` entries are converted. -/
def fetch_rss_feed (http : Source → Except String Feed) (source : Source)
    (c : Nat) : List Article × Nat :=
  match http source with
  | Except.error _ => ([], c)
  | Except.ok feed =>
    entries_to_articles source (feed.entries.take max_articles_per_source) c

/-- The source loop of `BletaNewsAggregator.run`: fetch each source in
order and accumulate all articles (`all_articles.extend(articles)`). -/
def fetch_all_sources (http : Source → Except String Feed) :
    List Source → Nat → List Article × Nat
  | [], c => ([], c)
  | s :: rest, c =>
    let r := fetch_rss_feed http s c
    let r2 := fetch_all_sources http rest r.2
    (r.1 ++ r2.1, r2.2)

/-! ## Archive writing and the run's filesystem effects

`PATHS` in `config.py` and the write targets of `_save_daily_archive`,
`_save_processed_articles` and `_generate_favicon`. -/

def archive_dir : String := "data/archive"
def processed_file : String := "data/processed.json"
def output_dir : String := "public"

/-- `config.get_archive_path` for the current date. -/
def archivePathOf (c : Nat) : String := archive_dir ++ "/" ++ dateStr c ++ ".json"

/-- The GitHub-Pages copy written by `_save_daily_archive`. -/
def publicArchivePathOf (c : Nat) : String :=
  output_dir ++ "/archive/" ++ dateStr c ++ ".json"

def indexHtmlPath : String := output_dir ++ "/index.html"
def feedXmlPath : String := output_dir ++ "/feed.xml"
def faviconPath : String := output_dir ++ "/favicon.ico"

/-- The `archive_data` record assembled by `_save_daily_archive` (the
constant `PROJECT_CONFIG` metadata carried alongside is omitted). -/
structure ArchiveRecord where
  date : String
  timestamp : String
  articles : List Article
  total_articles : Nat
  sources : List String
deriving DecidableEq

/-- One filesystem write performed during a run. -/
inductive Event where
  | writeArchive (path : String) (record : ArchiveRecord)
  | writeIndexHtml
  | writeRssFeed
  | saveDedup (store : DedupStore)
  | favicon
deriving DecidableEq

/-- Is this event the dedup-store save? -/
def isSaveDedup : Event → Bool
  | Event.saveDedup _ => true
  | _ => false

/-- `BletaNewsAggregator._save_daily_archive`: with no articles it returns
before any write; otherwise it writes the archive record, its public copy,
today's HTML page, and the RSS feed, in that order.  `c` is the clock at the
`today = datetime.now()` observation. -/
def save_daily_archive (articles : List Article) (c : Nat) : List Event :=
  if articles = [] then []
  else
    let record : ArchiveRecord :=
      { date := dateStr c
        timestamp := isoTime c
        articles := articles
        total_articles := articles.length
        sources := articles.map (fun a => a.source) }
    [Event.writeArchive (archivePathOf c) record,
     Event.writeArchive (publicArchivePathOf c) record,
     Event.writeIndexHtml,
     Event.writeRssFeed]

/-- `BletaNewsAggregator.run`: fetch every enabled source, process the
accumulated articles, write the daily archive, save the dedup store
(`_save_processed_articles` stamps a fresh `last_updated` at save time), and
generate the favicon. -/
def run (http : Source → Except String Feed) (client : Option GenClient)
    (sources : List Source) (store0 : DedupStore) (c : Nat) : List Event :=
  let fetched := fetch_all_sources http (get_enabled_sources sources) c
  let pr := process_articles client store0 fetched.1 fetched.2
  save_daily_archive pr.1 pr.2.2
    ++ [Event.saveDedup { processed_ids := pr.2.1, last_updated := isoTime (pr.2.2 + 1) },
        Event.favicon]

/-- What a path holds on disk after a write. -/
inductive FileData where
  | record (r : ArchiveRecord)
  | page
  | feed
  | dedupFile (st : DedupStore)
  | icon
deriving DecidableEq

/-- The filesystem: what each path currently holds, if anything. -/
def Fs : Type := String → Option FileData

/-- Apply one write event to the filesystem. -/
def applyEvent (fs : Fs) : Event → Fs
  | Event.writeArchive p r => fun q => if q = p then some (FileData.record r) else fs q
  | Event.writeIndexHtml => fun q => if q = indexHtmlPath then some FileData.page else fs q
  | Event.writeRssFeed => fun q => if q = feedXmlPath then some FileData.feed else fs q
  | Event.saveDedup st => fun q => if q = processed_file then some (FileData.dedupFile st) else fs q
  | Event.favicon => fun q => if q = faviconPath then some FileData.icon else fs q

/-- Apply a run's write events in order. -/
def applyEvents (fs : Fs) (evs : List Event) : Fs := evs.foldl applyEvent fs

/-! ## Concrete fixtures used by counterexamples and witnesses -/

/-- An article whose every field is present but empty, as `_fetch_rss_feed`
builds from a degenerate feed entry: its identity falls into the
timestamp fallback branch. -/
def articleAllEmpty : Article :=
  { title := some "", link := some "", description := some "",
    published := some "", language := some "sq", guid := some "",
    fetched_at := some "ts-x", source := "S", source_url := "U",
    ai_summary := none }

/-- An article with an empty (but present) `title` and no usable `link` or
`published`: the input separating `article.get('title', 'unknown')` from
the claimed `title or "unknown"`. -/
def articleEmptyTitle : Article :=
  { title := some "", link := none, description := none,
    published := some "2024-01-01", language := none, guid := none,
    fetched_at := none, source := "S", source_url := "U", ai_summary := none }

/-- An ordinary article with a non-empty link (stable identity). -/
def articleLinked : Article :=
  { title := some "T", link := some "http://x/a", description := some "D",
    published := some "2024-01-01", language := some "sq",
    guid := some "http://x/a", fetched_at := some "ts-x",
    source := "Top Channel", source_url := "https://top-channel.tv/feed/",
    ai_summary := none }

def srcA : Source :=
  { name := "Top Channel", url := "https://top-channel.tv/feed/",
    language := "sq", enabled := some true }

def srcB : Source :=
  { name := "Koha.net", url := "https://www.koha.net/rss/",
    language := "sq", enabled := some true }

/-! # Claims -/

/-! ## C2 — identity resolution -/

/-- C2 counterexample: on an article whose `title` key is present but empty
(and with no usable `link`), the code computes `"" ++ "_" ++ now` (because
`article.get('title', 'unknown')` only defaults on an *absent* key), while
the claim's reading `title if non-empty else "unknown"` computes
`"unknown" ++ "_" ++ now`.  The two differ. -/
theorem c2_counterexample :
    generate_article_id articleEmptyTitle "T0" ≠ claimed_article_id articleEmptyTitle "T0" := by
  decide

/-- C2 (amended): `_generate_article_id` returns the link when it is
non-empty; otherwise `title + "_" + published` when both are non-empty;
otherwise the fallback uses the *value of the title key whenever the key is
present (even when empty)* — the `"unknown"` default applies only when the
key is absent — followed by `"_"` and the current timestamp. -/
theorem c2_identity_resolution_amended (a : Article) (now : String) :
    (truthy a.link = true → generate_article_id a now = a.link.getD "")
    ∧ (truthy a.link = false → (truthy a.title && truthy a.published) = true →
        generate_article_id a now = a.title.getD "" ++ "_" ++ a.published.getD "")
    ∧ (truthy a.link = false → (truthy a.title && truthy a.published) = false →
        generate_article_id a now =
          (match a.title with | some t => t | none => "unknown") ++ "_" ++ now) := by
  refine ⟨fun h => ?_, fun h1 h2 => ?_, fun h1 h2 => ?_⟩
  · simp [generate_article_id, h]
  · simp [generate_article_id, h1, h2]
  · simp only [generate_article_id, h1, h2, if_false, Bool.false_eq_true]
    cases a.title <;> rfl

/-- C2 amended witness at the concrete empty-title article. -/
theorem c2_amended_witness :
    truthy articleEmptyTitle.link = false
    ∧ (truthy articleEmptyTitle.title && truthy articleEmptyTitle.published) = false
    ∧ generate_article_id articleEmptyTitle "T0" = "" ++ "_" ++ "T0" :=
  ⟨by decide, by decide,
    (c2_identity_resolution_amended articleEmptyTitle "T0").2.2 (by decide) (by decide)⟩

/-! ## C4 — summarizer fallback when the AI client is unset -/

/-- C4: with the AI client unset, `_summarize_with_gemini` truncates to 200
characters plus an ellipsis marker exactly when the text is longer than 200
characters, returns the text unchanged otherwise, and maps empty input to
the empty string. -/
theorem c4_summarizer_fallback (text language : String) :
    (200 < text.length → summarize_with_gemini none text language = text.take 200 ++ "...")
    ∧ (text.length ≤ 200 → summarize_with_gemini none text language = text)
    ∧ summarize_with_gemini none "" language = "" := by
  refine ⟨fun h => ?_, fun h => ?_, rfl⟩
  · simp [summarize_with_gemini, truncate_fallback, h]
  · simp [summarize_with_gemini, truncate_fallback, Nat.not_lt.mpr h]

/-- C4 witness: a 201-character text is truncated with the marker; a short
text passes through unchanged. -/
theorem c4_witness :
    200 < ((List.replicate 201 'a').asString).length
    ∧ summarize_with_gemini none ((List.replicate 201 'a').asString) "sq"
        = ((List.replicate 201 'a').asString).take 200 ++ "..."
    ∧ summarize_with_gemini none "abc" "sq" = "abc" :=
  ⟨by decide, (c4_summarizer_fallback _ "sq").1 (by decide),
    (c4_summarizer_fallback "abc" "sq").2.1 (by decide)⟩

/-! ## C8 — dedup-store load tolerance -/

/-- C8: `_load_processed_articles` is total over every modelled filesystem
state; a missing file and a file whose contents fail to parse both yield the
fresh empty store rather than an error. -/
theorem c8_load_tolerance (disk : Option (Except String DedupStore)) (now : String) :
    (disk = none →
      load_processed_articles disk now = { processed_ids := [], last_updated := now })
    ∧ (∀ e, disk = some (Except.error e) →
      load_processed_articles disk now = { processed_ids := [], last_updated := now }) := by
  refine ⟨fun h => ?_, fun e h => ?_⟩ <;> subst h <;> rfl

/-- C8 witness: the missing-file and malformed-content cases at concrete
inputs. -/
theorem c8_witness :
    load_processed_articles none "t9" = { processed_ids := [], last_updated := "t9" }
    ∧ load_processed_articles (some (Except.error "bad json")) "t9"
        = { processed_ids := [], last_updated := "t9" } :=
  ⟨(c8_load_tolerance none "t9").1 rfl,
    (c8_load_tolerance (some (Except.error "bad json")) "t9").2 "bad json" rfl⟩

/-! ## C6 — archive skip rule -/

/-- C6: with zero new articles `_save_daily_archive` returns before any
write: it emits no events, and the filesystem — in particular any
pre-existing archive record for the date — is untouched. -/
theorem c6_archive_skip (c : Nat) (fs : Fs) :
    save_daily_archive [] c = []
    ∧ (∀ p, applyEvents fs (save_daily_archive [] c) p = fs p) :=
  ⟨rfl, fun _ => rfl⟩

/-! ## C9 — source-fetch failure containment -/

/-- Splitting the source loop of `run` around an append. -/
theorem fetch_all_sources_append (http : Source → Except String Feed)
    (pre post : List Source) (c : Nat) :
    fetch_all_sources http (pre ++ post) c =
      ((fetch_all_sources http pre c).1
          ++ (fetch_all_sources http post (fetch_all_sources http pre c).2).1,
        (fetch_all_sources http post (fetch_all_sources http pre c).2).2) := by
  induction pre generalizing c with
  | nil => simp [fetch_all_sources]
  | cons a rest ih => simp [fetch_all_sources, ih]

/-- C9: when the HTTP fetch / feed handling of a source raises, that source
contributes an empty article list (and no clock advance), and the
surrounding source loop still yields exactly the articles of the sources
before and after it. -/
theorem c9_fetch_failure_containment (http : Source → Except String Feed)
    (s : Source) (e : String) (pre post : List Source) (c : Nat)
    (h : http s = Except.error e) :
    fetch_rss_feed http s c = ([], c)
    ∧ (fetch_all_sources http (pre ++ s :: post) c).1 =
        (fetch_all_sources http pre c).1
          ++ (fetch_all_sources http post (fetch_all_sources http pre c).2).1 := by
  constructor
  · unfold fetch_rss_feed; rw [h]
  · rw [fetch_all_sources_append]
    simp [fetch_all_sources, fetch_rss_feed, h]

/-- C9 witness: a DNS-style failure on every source at concrete inputs. -/
theorem c9_witness :
    fetch_rss_feed (fun _ => Except.error "dns failure") srcA 0 = ([], 0)
    ∧ (fetch_all_sources (fun _ => Except.error "dns failure") ([srcB] ++ srcA :: []) 0).1 =
        (fetch_all_sources (fun _ => Except.error "dns failure") [srcB] 0).1
          ++ (fetch_all_sources (fun _ => Except.error "dns failure") []
              (fetch_all_sources (fun _ => Except.error "dns failure") [srcB] 0).2).1 :=
  c9_fetch_failure_containment (fun _ => Except.error "dns failure") srcA "dns failure"
    [srcB] [] 0 rfl

/-! ## Helper lemmas about the `_process_articles` loop -/

/-- A stable identity does not depend on the wall clock. -/
theorem genId_stable_clock (a : Article) (h : stable_identity a) (t t2 : String) :
    generate_article_id a t = generate_article_id a t2 := by
  rcases h with h | ⟨h1, h2⟩
  · simp [generate_article_id, h]
  · cases hL : truthy a.link <;> simp [generate_article_id, hL, h1, h2]

/-- The identity set of the loop only grows. -/
theorem seenAfter_mono (x : String) :
    ∀ (arts : List Article) (ids : List String) (c : Nat),
      x ∈ ids → x ∈ seenAfter arts ids c := by
  intro arts
  induction arts with
  | nil => intro ids c h; simpa [seenAfter] using h
  | cons a rest ih =>
    intro ids c h
    by_cases hm : generate_article_id a (isoTime c) ∈ ids
    · simpa [seenAfter, hm] using ih ids (c + 1) h
    · simpa [seenAfter, hm] using ih _ (c + 1) (List.mem_cons_of_mem _ h)

/-- The identity-set component of `processGo` is `seenAfter`. -/
theorem processGo_snd_fst (client : Option GenClient) :
    ∀ (arts : List Article) (ids : List String) (c : Nat),
      (processGo client arts ids c).2.1 = seenAfter arts ids c := by
  intro arts
  induction arts with
  | nil => intro ids c; rfl
  | cons a rest ih =>
    intro ids c
    by_cases hm : generate_article_id a (isoTime c) ∈ ids <;>
      simp [processGo, seenAfter, hm, ih]

/-- The clock advances by exactly one per input article. -/
theorem processGo_snd_snd (client : Option GenClient) :
    ∀ (arts : List Article) (ids : List String) (c : Nat),
      (processGo client arts ids c).2.2 = c + arts.length := by
  intro arts
  induction arts with
  | nil => intro ids c; rfl
  | cons a rest ih =>
    intro ids c
    by_cases hm : generate_article_id a (isoTime c) ∈ ids <;>
      simp [processGo, hm, ih] <;> omega

/-- After the loop, the (clock-independent) identity of every stable input
article is in the identity set. -/
theorem seenAfter_mem_of_stable :
    ∀ (arts : List Article) (ids : List String) (c : Nat) (a : Article),
      a ∈ arts → stable_identity a →
      generate_article_id a "" ∈ seenAfter arts ids c := by
  intro arts
  induction arts with
  | nil => intro ids c a ha; exact absurd ha (List.not_mem_nil a)
  | cons b rest ih =>
    intro ids c a ha hs
    rcases List.mem_cons.mp ha with rfl | ha2
    · by_cases hm : generate_article_id a (isoTime c) ∈ ids
      · have : generate_article_id a "" ∈ ids := by
          rwa [genId_stable_clock a hs "" (isoTime c)]
        simpa [seenAfter, hm] using seenAfter_mono _ rest ids (c + 1) this
      · have : generate_article_id a "" ∈ generate_article_id a (isoTime c) :: ids := by
          rw [genId_stable_clock a hs "" (isoTime c)]
          exact List.mem_cons_self _ _
        simpa [seenAfter, hm] using seenAfter_mono _ rest _ (c + 1) this
    · by_cases hm : generate_article_id b (isoTime c) ∈ ids <;>
        simpa [seenAfter, hm] using ih _ (c + 1) a ha2 hs

/-- If every input article has a stable identity already in the identity
set, the loop retains nothing. -/
theorem processGo_skip_all (client : Option GenClient) :
    ∀ (arts : List Article) (ids : List String) (c : Nat),
      (∀ a ∈ arts, stable_identity a ∧ generate_article_id a "" ∈ ids) →
      (processGo client arts ids c).1 = [] := by
  intro arts
  induction arts with
  | nil => intro ids c _; rfl
  | cons a rest ih =>
    intro ids c h
    obtain ⟨hs, hmem⟩ := h a (List.mem_cons_self a rest)
    have hm : generate_article_id a (isoTime c) ∈ ids := by
      rwa [genId_stable_clock a hs (isoTime c) ""]
    simpa [processGo, hm] using
      ih ids (c + 1) (fun b hb => h b (List.mem_cons_of_mem _ hb))

/-- Enrichment only sets `ai_summary`, so it does not change the identity. -/
theorem genId_enrich (client : Option GenClient) (a : Article) (t : String) :
    generate_article_id (enrich client a) t = generate_article_id a t := rfl

/-- Every article retained by the loop has its identity (as computed at its
processing time) in the final identity set. -/
theorem processGo_out_ids (client : Option GenClient) :
    ∀ (arts : List Article) (ids : List String) (c : Nat) (a : Article),
      a ∈ (processGo client arts ids c).1 →
      ∃ t, generate_article_id a t ∈ (processGo client arts ids c).2.1 := by
  intro arts
  induction arts with
  | nil => intro ids c a ha; exact absurd ha (List.not_mem_nil a)
  | cons b rest ih =>
    intro ids c a ha
    by_cases hm : generate_article_id b (isoTime c) ∈ ids
    · rw [show processGo client (b :: rest) ids c = processGo client rest ids (c + 1) by
        simp [processGo, hm]] at ha ⊢
      exact ih ids (c + 1) a ha
    · rw [show processGo client (b :: rest) ids c
          = (enrich client b :: (processGo client rest (generate_article_id b (isoTime c) :: ids) (c + 1)).1,
             (processGo client rest (generate_article_id b (isoTime c) :: ids) (c + 1)).2) by
        simp [processGo, hm]] at ha ⊢
      rcases List.mem_cons.mp ha with rfl | ha2
      · refine ⟨isoTime c, ?_⟩
        rw [genId_enrich, processGo_snd_fst]
        exact seenAfter_mono _ rest _ (c + 1) (List.mem_cons_self _ _)
      · exact ih _ (c + 1) a ha2

/-- A run that retains nothing leaves the identity set exactly as loaded. -/
theorem process_articles_fst_nil_ids (client : Option GenClient)
    (store : DedupStore) (arts : List Article) (c : Nat)
    (h : (process_articles client store arts c).1 = []) :
    (process_articles client store arts c).2.1 = store.processed_ids.dedup := by
  unfold process_articles at h ⊢
  revert h
  generalize store.processed_ids.dedup = ids
  induction arts generalizing ids c with
  | nil => intro _; rfl
  | cons a rest ih =>
    intro h
    by_cases hm : generate_article_id a (isoTime c) ∈ ids
    · rw [show processGo client (a :: rest) ids c = processGo client rest ids (c + 1) by
        simp [processGo, hm]] at h ⊢
      exact ih (c + 1) ids h
    · exfalso
      have : (processGo client (a :: rest) ids c).1
          = enrich client a :: (processGo client rest (generate_article_id a (isoTime c) :: ids) (c + 1)).1 := by
        simp [processGo, hm]
      rw [this] at h
      exact List.cons_ne_nil _ _ h

/-! ## C1 — pipeline idempotence -/

/-- C1 counterexample: an all-empty-fields article (producible by the
fetcher from a degenerate entry) falls into the timestamp fallback of
`_generate_article_id`, so its identity differs between the two runs and the
second run over the exact same article list — seeded with the dedup store
produced by the first run — retains it again. -/
theorem c1_counterexample :
    (process_articles none
        { processed_ids :=
            (process_articles none { processed_ids := [], last_updated := "t0" }
              [articleAllEmpty] 0).2.1,
          last_updated := "t1" }
        [articleAllEmpty]
        (process_articles none { processed_ids := [], last_updated := "t0" }
          [articleAllEmpty] 0).2.2).1 ≠ [] := by
  decide

/-- C1 (amended): when every article in the list has a stable identity
(non-empty `link`, or non-empty `title` and `published`), running
`_process_articles` over the list a second time — from the dedup store
produced by the first run, at any later clock and with any AI client —
retains zero new articles. -/
theorem c1_pipeline_idempotence_amended (client client2 : Option GenClient)
    (store : DedupStore) (articles : List Article) (c c2 : Nat) (lu : String)
    (h : ∀ a ∈ articles, stable_identity a) :
    (process_articles client2
        { processed_ids := (process_articles client store articles c).2.1,
          last_updated := lu }
        articles c2).1 = [] := by
  unfold process_articles
  apply processGo_skip_all
  intro a ha
  refine ⟨h a ha, ?_⟩
  show generate_article_id a "" ∈ ((processGo client articles store.processed_ids.dedup c).2.1).dedup
  rw [List.mem_dedup, processGo_snd_fst]
  exact seenAfter_mem_of_stable _ _ _ _ ha (h a ha)

/-- C1 amended witness: a linked article, first run at clock 0, second run
at clock 7. -/
theorem c1_witness :
    (∀ a ∈ [articleLinked], stable_identity a)
    ∧ (process_articles none
        { processed_ids :=
            (process_articles none { processed_ids := [], last_updated := "t0" }
              [articleLinked] 0).2.1,
          last_updated := "t1" }
        [articleLinked] 7).1 = [] :=
  ⟨by decide,
    c1_pipeline_idempotence_amended none none
      { processed_ids := [], last_updated := "t0" } [articleLinked] 0 7 "t1" (by decide)⟩

/-! ## C10 — dedup-store monotonicity within a run -/

/-- C10: `_process_articles` never removes identities — every identity
loaded at the start is still in the stored set afterwards — and the identity
of every retained article (computed at its processing time) has been added
to the stored set. -/
theorem c10_dedup_monotonicity (client : Option GenClient) (store : DedupStore)
    (articles : List Article) (c : Nat) :
    (∀ x ∈ store.processed_ids, x ∈ (process_articles client store articles c).2.1)
    ∧ (∀ a ∈ (process_articles client store articles c).1,
        ∃ t, generate_article_id a t ∈ (process_articles client store articles c).2.1) := by
  constructor
  · intro x hx
    show x ∈ (processGo client articles store.processed_ids.dedup c).2.1
    rw [processGo_snd_fst]
    exact seenAfter_mono x _ _ _ (List.mem_dedup.mpr hx)
  · intro a ha
    exact processGo_out_ids client articles _ c a ha

/-- C10 witness at a concrete store and article list. -/
theorem c10_witness :
    "k" ∈ (process_articles none { processed_ids := ["k"], last_updated := "t" }
            [articleLinked] 0).2.1
    ∧ ∃ t, generate_article_id (enrich none articleLinked) t
        ∈ (process_articles none { processed_ids := ["k"], last_updated := "t" }
            [articleLinked] 0).2.1 :=
  ⟨(c10_dedup_monotonicity none { processed_ids := ["k"], last_updated := "t" }
      [articleLinked] 0).1 "k" (by decide),
    (c10_dedup_monotonicity none { processed_ids := ["k"], last_updated := "t" }
      [articleLinked] 0).2 (enrich none articleLinked) (by decide)⟩

/-! ## C3 — within-run cross-source collapse -/

/-- The retained list of the loop is the flag-selected input, enriched. -/
theorem processGo_fst_eq (client : Option GenClient) :
    ∀ (arts : List Article) (ids : List String) (c : Nat),
      (processGo client arts ids c).1
        = (maskSelect (retainedFlags arts ids c) arts).map (enrich client) := by
  intro arts
  induction arts with
  | nil => intro ids c; rfl
  | cons a rest ih =>
    intro ids c
    by_cases hm : generate_article_id a (isoTime c) ∈ ids <;>
      simp [processGo, retainedFlags, maskSelect, hm, ih]

/-- If the identity computed for position `k` is already in the identity
set before the loop reaches the remaining articles, position `k` is
skipped. -/
theorem flags_false_of_mem :
    ∀ (arts : List Article) (ids : List String) (c k : Nat),
      k < arts.length →
      generate_article_id (arts.getD k default) (isoTime (c + k)) ∈ ids →
      (retainedFlags arts ids c).getD k true = false := by
  intro arts
  induction arts with
  | nil => intro ids c k hk; exact absurd hk (by simp)
  | cons a rest ih =>
    intro ids c k hk hmem
    cases k with
    | zero =>
      rw [List.getD_cons_zero, Nat.add_zero] at hmem
      simp only [retainedFlags]
      rw [List.getD_cons_zero, if_pos hmem]
    | succ k2 =>
      have hk2 : k2 < rest.length := by simpa using hk
      rw [List.getD_cons_succ] at hmem
      rw [show c + (k2 + 1) = (c + 1) + k2 by omega] at hmem
      have hmem2 : generate_article_id (rest.getD k2 default)
          (isoTime ((c + 1) + k2)) ∈
          (if generate_article_id a (isoTime c) ∈ ids then ids
           else generate_article_id a (isoTime c) :: ids) := by
        by_cases hm : generate_article_id a (isoTime c) ∈ ids
        · rw [if_pos hm]; exact hmem
        · rw [if_neg hm]; exact List.mem_cons_of_mem _ hmem
      have htail := ih _ (c + 1) k2 hk2 hmem2
      simp only [retainedFlags]
      rw [List.getD_cons_succ]
      exact htail

/-- The collapse property at the level of flags: the article at position `j`
is dropped whenever an earlier position `i` computed the same identity. -/
theorem flags_false_of_earlier_eq :
    ∀ (arts : List Article) (ids : List String) (c i j : Nat),
      i < j → j < arts.length →
      generate_article_id (arts.getD i default) (isoTime (c + i))
        = generate_article_id (arts.getD j default) (isoTime (c + j)) →
      (retainedFlags arts ids c).getD j true = false := by
  intro arts
  induction arts with
  | nil => intro ids c i j hij hj; exact absurd hj (by simp)
  | cons a rest ih =>
    intro ids c i j hij hj heq
    cases j with
    | zero => exact absurd hij (by omega)
    | succ j2 =>
      have hj2 : j2 < rest.length := by simpa using hj
      cases i with
      | zero =>
        rw [List.getD_cons_zero, Nat.add_zero, List.getD_cons_succ] at heq
        rw [show c + (j2 + 1) = (c + 1) + j2 by omega] at heq
        have hmem2 : generate_article_id (rest.getD j2 default)
            (isoTime ((c + 1) + j2)) ∈
            (if generate_article_id a (isoTime c) ∈ ids then ids
             else generate_article_id a (isoTime c) :: ids) := by
          rw [← heq]
          by_cases hm : generate_article_id a (isoTime c) ∈ ids
          · rw [if_pos hm]; exact hm
          · rw [if_neg hm]; exact List.mem_cons_self _ _
        have htail := flags_false_of_mem rest _ (c + 1) j2 hj2 hmem2
        simp only [retainedFlags]
        rw [List.getD_cons_succ]
        exact htail
      | succ i2 =>
        have hij2 : i2 < j2 := by omega
        rw [List.getD_cons_succ, List.getD_cons_succ] at heq
        rw [show c + (i2 + 1) = (c + 1) + i2 by omega,
            show c + (j2 + 1) = (c + 1) + j2 by omega] at heq
        have htail := ih
          (if generate_article_id a (isoTime c) ∈ ids then ids
           else generate_article_id a (isoTime c) :: ids)
          (c + 1) i2 j2 hij2 hj2 heq
        simp only [retainedFlags]
        rw [List.getD_cons_succ]
        exact htail

/-- C3: if two input positions `i < j` (across sources or within one)
compute the same identity during the run of `_process_articles`, the later
position is dropped — its retain flag is `false` — even when that identity
was not in the persisted store at the start; and the retained output is
exactly the flag-selected input, enriched, so only the first-encountered
occurrence can appear in the output. -/
theorem c3_cross_source_collapse (client : Option GenClient) (store : DedupStore)
    (articles : List Article) (c i j : Nat)
    (hij : i < j) (hj : j < articles.length)
    (heq : generate_article_id (articles.getD i default) (isoTime (c + i))
         = generate_article_id (articles.getD j default) (isoTime (c + j))) :
    (retainedFlags articles store.processed_ids.dedup c).getD j true = false
    ∧ (process_articles client store articles c).1
        = (maskSelect (retainedFlags articles store.processed_ids.dedup c) articles).map
            (enrich client) :=
  ⟨flags_false_of_earlier_eq articles _ c i j hij hj heq,
    processGo_fst_eq client articles _ c⟩

/-- C3 witness: two sources syndicating the same link; the second occurrence
is dropped. -/
theorem c3_witness :
    (retainedFlags [articleLinked, articleLinked] List.nil.dedup 0).getD 1 true = false
    ∧ (process_articles none { processed_ids := [], last_updated := "t" }
        [articleLinked, articleLinked] 0).1
      = (maskSelect (retainedFlags [articleLinked, articleLinked] List.nil.dedup 0)
          [articleLinked, articleLinked]).map (enrich none) :=
  c3_cross_source_collapse none { processed_ids := [], last_updated := "t" }
    [articleLinked, articleLinked] 0 0 1 (by decide) (by decide) (by decide)

/-! ## C5 — unconditional dedup-store rewrite -/

/-- `_save_daily_archive` never writes the dedup store. -/
theorem save_daily_archive_no_dedup (arts : List Article) (c : Nat) :
    ∀ ev ∈ save_daily_archive arts c, isSaveDedup ev = false := by
  intro ev hev
  unfold save_daily_archive at hev
  by_cases hA : arts = []
  · simp [hA] at hev
  · simp only [if_neg hA, List.mem_cons, List.not_mem_nil, or_false] at hev
    rcases hev with h | h | h | h <;> subst h <;> rfl

/-- The entry loop only advances the clock. -/
theorem entries_to_articles_clock (s : Source) :
    ∀ (es : List Entry) (c : Nat), c ≤ (entries_to_articles s es c).2 := by
  intro es
  induction es with
  | nil => intro c; exact Nat.le_refl c
  | cons e rest ih =>
    intro c
    have h := ih (c + 1)
    simp only [entries_to_articles]
    omega

/-- Fetching one source only advances the clock. -/
theorem fetch_rss_feed_clock (http : Source → Except String Feed) (s : Source)
    (c : Nat) : c ≤ (fetch_rss_feed http s c).2 := by
  cases hh : http s with
  | error e => simp [fetch_rss_feed, hh]
  | ok feed =>
    simpa [fetch_rss_feed, hh] using entries_to_articles_clock s _ c

/-- The source loop only advances the clock. -/
theorem fetch_all_sources_clock (http : Source → Except String Feed) :
    ∀ (srcs : List Source) (c : Nat), c ≤ (fetch_all_sources http srcs c).2 := by
  intro srcs
  induction srcs with
  | nil => intro c; exact Nat.le_refl c
  | cons s rest ih =>
    intro c
    have h1 := fetch_rss_feed_clock http s c
    have h2 := ih (fetch_rss_feed http s c).2
    simp only [fetch_all_sources]
    omega

/-- C5: every completed run emits the dedup-store save exactly once, after
all archive writes (no archive event is a dedup save, and the save sits
between the archive events and the favicon step); the saved record's
`last_updated` is the timestamp generated at save time (at a clock no
earlier than the run's start); and when zero new articles were retained the
saved `processed_ids` are set-equal to those loaded at the start. -/
theorem c5_dedup_save_once (http : Source → Except String Feed)
    (client : Option GenClient) (sources : List Source) (store0 : DedupStore)
    (c : Nat) (fetched : List Article × Nat) (pr : List Article × List String × Nat)
    (hf : fetched = fetch_all_sources http (get_enabled_sources sources) c)
    (hp : pr = process_articles client store0 fetched.1 fetched.2) :
    run http client sources store0 c
      = save_daily_archive pr.1 pr.2.2
          ++ [Event.saveDedup
                { processed_ids := pr.2.1, last_updated := isoTime (pr.2.2 + 1) },
              Event.favicon]
    ∧ List.countP isSaveDedup (run http client sources store0 c) = 1
    ∧ (∀ ev ∈ save_daily_archive pr.1 pr.2.2, isSaveDedup ev = false)
    ∧ c ≤ pr.2.2
    ∧ (pr.1 = [] → ∀ x, x ∈ pr.2.1 ↔ x ∈ store0.processed_ids) := by
  subst hp
  subst hf
  have hrun : run http client sources store0 c
      = save_daily_archive
          (process_articles client store0
            (fetch_all_sources http (get_enabled_sources sources) c).1
            (fetch_all_sources http (get_enabled_sources sources) c).2).1
          (process_articles client store0
            (fetch_all_sources http (get_enabled_sources sources) c).1
            (fetch_all_sources http (get_enabled_sources sources) c).2).2.2
        ++ [Event.saveDedup
              { processed_ids := (process_articles client store0
                  (fetch_all_sources http (get_enabled_sources sources) c).1
                  (fetch_all_sources http (get_enabled_sources sources) c).2).2.1,
                last_updated := isoTime ((process_articles client store0
                  (fetch_all_sources http (get_enabled_sources sources) c).1
                  (fetch_all_sources http (get_enabled_sources sources) c).2).2.2 + 1) },
            Event.favicon] := rfl
  refine ⟨hrun, ?_, save_daily_archive_no_dedup _ _, ?_, ?_⟩
  · rw [hrun, List.countP_append]
    have h0 : List.countP isSaveDedup
        (save_daily_archive
          (process_articles client store0
            (fetch_all_sources http (get_enabled_sources sources) c).1
            (fetch_all_sources http (get_enabled_sources sources) c).2).1
          (process_articles client store0
            (fetch_all_sources http (get_enabled_sources sources) c).1
            (fetch_all_sources http (get_enabled_sources sources) c).2).2.2) = 0 :=
      List.countP_eq_zero.mpr
        (fun ev hev => by simp [save_daily_archive_no_dedup _ _ ev hev])
    rw [h0]
    rfl
  · show c ≤ (processGo client
        (fetch_all_sources http (get_enabled_sources sources) c).1
        store0.processed_ids.dedup
        (fetch_all_sources http (get_enabled_sources sources) c).2).2.2
    rw [processGo_snd_snd]
    have h1 := fetch_all_sources_clock http (get_enabled_sources sources) c
    omega
  · intro h x
    have hids := process_articles_fst_nil_ids client store0 _ _ h
    rw [hids]
    exact List.mem_dedup

/-- C5 witness: an empty source list, a duplicate-carrying loaded store, and
zero new articles. -/
theorem c5_witness :
    (process_articles none { processed_ids := ["a", "a"], last_updated := "t" }
        (fetch_all_sources (fun _ => Except.error "down") (get_enabled_sources []) 0).1
        (fetch_all_sources (fun _ => Except.error "down") (get_enabled_sources []) 0).2).1 = []
    ∧ List.countP isSaveDedup
        (run (fun _ => Except.error "down") none []
          { processed_ids := ["a", "a"], last_updated := "t" } 0) = 1
    ∧ ("a" ∈ (process_articles none { processed_ids := ["a", "a"], last_updated := "t" }
          (fetch_all_sources (fun _ => Except.error "down") (get_enabled_sources []) 0).1
          (fetch_all_sources (fun _ => Except.error "down") (get_enabled_sources []) 0).2).2.1
        ↔ "a" ∈ ["a", "a"]) := by
  have h := c5_dedup_save_once (fun _ => Except.error "down") none []
    { processed_ids := ["a", "a"], last_updated := "t" } 0 _ _ rfl rfl
  exact ⟨by decide, h.2.1, h.2.2.2.2 (by decide) "a"⟩

/-! ## C7 — normalization idempotence -/

/-- Round trip between character lists and strings. -/
theorem toList_asString (l : List Char) : (List.asString l).toList = l := rfl

/-- The markup machine is the identity on text containing neither `<`
nor `&`. -/
theorem getTextFuel_id :
    ∀ (f : Nat) (l : List Char), l.length ≤ f →
      (∀ ch ∈ l, ch ≠ '<' ∧ ch ≠ '&') → getTextFuel f false l = l := by
  intro f
  induction f with
  | zero =>
    intro l hl _
    rw [List.length_eq_zero.mp (Nat.le_zero.mp hl)]
    rfl
  | succ f ih =>
    intro l hl hc
    cases l with
    | nil => rfl
    | cons c cs =>
      have h1 := hc c (List.mem_cons_self c cs)
      simp only [getTextFuel]
      rw [if_neg h1.1, if_neg h1.2]
      have hlen : cs.length ≤ f := by simpa using hl
      rw [ih cs hlen (fun ch hch => hc ch (List.mem_cons_of_mem _ hch))]

/-- Every word produced by the splitter is non-empty and whitespace-free
(provided the running accumulator is whitespace-free). -/
theorem splitWsAux_words :
    ∀ (l acc : List Char), (∀ ch ∈ acc, pySpace ch = false) →
      ∀ w ∈ splitWsAux l acc, w ≠ [] ∧ ∀ ch ∈ w, pySpace ch = false := by
  intro l
  induction l with
  | nil =>
    intro acc hacc w hw
    by_cases ha : acc = []
    · simp [splitWsAux, ha] at hw
    · simp only [splitWsAux, if_neg ha, List.mem_singleton] at hw
      subst hw
      refine ⟨fun hrev => ha (by simpa using hrev), fun ch hch => ?_⟩
      exact hacc ch (List.mem_reverse.mp hch)
  | cons c cs ih =>
    intro acc hacc w hw
    by_cases hsp : pySpace c = true
    · by_cases ha : acc = []
      · simp only [splitWsAux, hsp, if_true, ha, if_pos] at hw
        exact ih [] (fun ch hch => absurd hch (List.not_mem_nil ch)) w hw
      · simp only [splitWsAux, hsp, if_true, if_neg ha, List.mem_cons] at hw
        rcases hw with rfl | hw2
        · refine ⟨fun hrev => ha (by simpa using hrev), fun ch hch => ?_⟩
          exact hacc ch (List.mem_reverse.mp hch)
        · exact ih [] (fun ch hch => absurd hch (List.not_mem_nil ch)) w hw2
    · have hspf : pySpace c = false := by simpa using hsp
      simp only [splitWsAux, hspf, Bool.false_eq_true, if_false] at hw
      refine ih (c :: acc) (fun ch hch => ?_) w hw
      rcases List.mem_cons.mp hch with rfl | hch2
      · exact hspf
      · exact hacc ch hch2

/-- Splitting an all-whitespace list only flushes the accumulator. -/
theorem splitWsAux_all_space :
    ∀ (t acc : List Char), (∀ ch ∈ t, pySpace ch = true) →
      splitWsAux t acc = if acc = [] then [] else [acc.reverse] := by
  intro t
  induction t with
  | nil => intro acc _; rfl
  | cons c t2 ih =>
    intro acc hall
    have hc : pySpace c = true := hall c (List.mem_cons_self c t2)
    have htail : ∀ ch ∈ t2, pySpace ch = true :=
      fun ch hch => hall ch (List.mem_cons_of_mem _ hch)
    by_cases ha : acc = []
    · simp only [splitWsAux, hc, if_true, ha, if_pos]
      rw [ih [] htail]
      rfl
    · simp only [splitWsAux, hc, if_true, if_neg ha]
      rw [ih [] htail]
      rfl

/-- Trailing whitespace does not change the split. -/
theorem splitWsAux_append_spaces :
    ∀ (l t acc : List Char), (∀ ch ∈ t, pySpace ch = true) →
      splitWsAux (l ++ t) acc = splitWsAux l acc := by
  intro l
  induction l with
  | nil =>
    intro t acc hall
    rw [List.nil_append, splitWsAux_all_space t acc hall]
    rfl
  | cons c cs ih =>
    intro t acc hall
    rw [List.cons_append]
    by_cases hsp : pySpace c = true
    · by_cases ha : acc = []
      · simp only [splitWsAux, hsp, if_true, ha, if_pos]
        exact ih t [] hall
      · simp only [splitWsAux, hsp, if_true, if_neg ha]
        rw [ih t [] hall]
    · have hspf : pySpace c = false := by simpa using hsp
      simp only [splitWsAux, hspf, Bool.false_eq_true, if_false]
      exact ih t (c :: acc) hall

/-- Leading whitespace does not change the split. -/
theorem splitWsAux_dropWhile_front :
    ∀ l : List Char, splitWsAux (l.dropWhile pySpace) [] = splitWsAux l [] := by
  intro l
  induction l with
  | nil => rfl
  | cons c cs ih =>
    by_cases hsp : pySpace c = true
    · rw [List.dropWhile_cons_of_pos hsp, ih]
      simp [splitWsAux, hsp]
    · have hspf : pySpace c = false := by simpa using hsp
      rw [List.dropWhile_cons_of_neg (by simp [hspf])]

/-- `strip()` does not change the split: the split of the stripped text is
the split of the original. -/
theorem splitWs_strip (l : List Char) :
    splitWsAux (pyStripList l) [] = splitWsAux l [] := by
  have h0 : ((l.dropWhile pySpace).reverse.takeWhile pySpace)
      ++ ((l.dropWhile pySpace).reverse.dropWhile pySpace)
      = (l.dropWhile pySpace).reverse := List.takeWhile_append_dropWhile _ _
  have h1 : l.dropWhile pySpace
      = ((l.dropWhile pySpace).reverse.dropWhile pySpace).reverse
        ++ ((l.dropWhile pySpace).reverse.takeWhile pySpace).reverse := by
    conv_lhs => rw [← List.reverse_reverse (l.dropWhile pySpace), ← h0]
    rw [List.reverse_append]
  have hspaces : ∀ ch ∈ ((l.dropWhile pySpace).reverse.takeWhile pySpace).reverse,
      pySpace ch = true := by
    intro ch hch
    exact List.mem_takeWhile_imp (List.mem_reverse.mp hch)
  calc splitWsAux (pyStripList l) []
      = splitWsAux (pyStripList l
          ++ ((l.dropWhile pySpace).reverse.takeWhile pySpace).reverse) [] :=
        (splitWsAux_append_spaces _ _ [] hspaces).symm
    _ = splitWsAux (l.dropWhile pySpace) [] := by
        unfold pyStripList; rw [← h1]
    _ = splitWsAux l [] := splitWsAux_dropWhile_front l

/-- Consuming a whitespace-free word moves it into the accumulator. -/
theorem splitWsAux_word_prefix :
    ∀ (w l acc : List Char), (∀ ch ∈ w, pySpace ch = false) →
      splitWsAux (w ++ l) acc = splitWsAux l (w.reverse ++ acc) := by
  intro w
  induction w with
  | nil => intro l acc _; rfl
  | cons c w2 ih =>
    intro l acc hw
    have hc : pySpace c = false := hw c (List.mem_cons_self c w2)
    rw [List.cons_append]
    simp only [splitWsAux, hc, Bool.false_eq_true, if_false]
    rw [ih l (c :: acc) (fun ch hch => hw ch (List.mem_cons_of_mem _ hch))]
    rw [List.reverse_cons, List.append_assoc, List.singleton_append]

/-- Splitting the space-join of non-empty whitespace-free words recovers
the words. -/
theorem joinSp_words_split :
    ∀ ws : List (List Char),
      (∀ w ∈ ws, w ≠ [] ∧ ∀ ch ∈ w, pySpace ch = false) →
      splitWsAux (joinSp ws) [] = ws := by
  intro ws
  induction ws with
  | nil => intro _; rfl
  | cons w ws2 ih =>
    intro hws
    obtain ⟨hne, hchars⟩ := hws w (List.mem_cons_self w ws2)
    cases ws2 with
    | nil =>
      show splitWsAux (joinSp [w]) [] = [w]
      have hw : joinSp [w] = w := rfl
      rw [hw, ← List.append_nil w, splitWsAux_word_prefix w [] [] hchars]
      simp only [List.append_nil, splitWsAux]
      rw [if_neg (fun hrev => hne (by simpa using hrev))]
      rw [List.reverse_reverse]
    | cons w2 ws3 =>
      have hj : joinSp (w :: w2 :: ws3) = w ++ ' ' :: joinSp (w2 :: ws3) := rfl
      rw [hj, splitWsAux_word_prefix w _ [] hchars, List.append_nil]
      have hsp : pySpace ' ' = true := rfl
      simp only [splitWsAux, hsp, if_true]
      rw [if_neg (fun hrev => hne (by simpa using hrev))]
      rw [List.reverse_reverse]
      rw [ih (fun v hv => hws v (List.mem_cons_of_mem _ hv))]

/-- The whitespace normalization (strip + split + single-space join) is
idempotent. -/
theorem normalizeWs_idem (l : List Char) :
    normalizeWs (normalizeWs l) = normalizeWs l := by
  unfold normalizeWs
  rw [splitWs_strip (joinSp (splitWsAux (pyStripList l) []))]
  rw [joinSp_words_split _
    (splitWsAux_words (pyStripList l) []
      (fun ch hch => absurd hch (List.not_mem_nil ch)))]

/-- C7 counterexample: `_clean_text` decodes HTML character references, so
cleaning `"&lt;b&gt;"` yields `"<b>"`, and cleaning that again strips the
re-introduced markup, yielding `""`.  `clean` is therefore not idempotent on
every input. -/
theorem c7_counterexample :
    clean_text (clean_text "&lt;b&gt;") ≠ clean_text "&lt;b&gt;" := by decide

/-- C7 (amended): `clean(clean(x)) == clean(x)` holds for every input `x`
whose cleaned form contains no `<` and no `&` — i.e. whenever cleaning does
not re-introduce markup-significant characters via character-reference
decoding.  (The counterexample shows the restriction is necessary.) -/
theorem c7_normalization_idempotence_amended (s : String)
    (h : ∀ ch ∈ (clean_text s).toList, ch ≠ '<' ∧ ch ≠ '&') :
    clean_text (clean_text s) = clean_text s := by
  by_cases hs : s = ""
  · subst hs; rfl
  · by_cases hy0 : clean_text s = ""
    · rw [hy0]; rfl
    · obtain ⟨y, hy⟩ : ∃ y, clean_text s = y := ⟨_, rfl⟩
      rw [hy] at h hy0 ⊢
      show clean_text y = y
      unfold clean_text
      rw [if_neg hy0]
      have hgt : getTextOf y.toList = y.toList := by
        unfold getTextOf
        exact getTextFuel_id _ _ (Nat.le_refl _) h
      rw [hgt]
      have hyv : y = (normalizeWs (getTextOf s.toList)).asString := by
        rw [← hy]
        unfold clean_text
        rw [if_neg hs]
      rw [hyv, toList_asString, normalizeWs_idem]

/-- C7 amended witness at a concrete markup-free input with ragged
whitespace. -/
theorem c7_witness : clean_text (clean_text "a  b") = clean_text "a  b" :=
  c7_normalization_idempotence_amended "a  b" (by decide)

end Bleta
